import Mathlib

/-!
Verification development for the utils-psa spectral-power-analysis pipeline.

The Python sources are shallowly embedded as Lean functions:
* `chunk.py`   : `parse_custom_time`, `chunk_by_time`, `per_chunk_analysis` (reducer part);
* `compile.py` : `combine_chunks` (outer merge on the Frequency key and the
  base-name averaging step);
* `normalize.py` : `normalize_data` (per-frequency z-score and baseline rescale).

Numeric CSV cells are modelled as rationals; a missing entry (NaN) is `none`.
The square root needed for a standard deviation lives in `ℝ`.
-/

namespace UtilsPsa

/-! ### chunk.py, `parse_custom_time`

The Python code does `_, time_str = time_str.split(".", 1)` (drop everything up
to the first dot; a `ValueError` escapes if there is no dot), then
`hh, mm, ss = map(int, time_str.split(":"))` (exactly three integer fields) and
returns `hh * 3600 + mm * 60 + ss`.  Strings are modelled as `List Char`,
failure (the raised `ValueError`) as `none`.
-/

/-- Split a character list at the first occurrence of `c`: `none` when `c` does
not occur, otherwise the parts before and after the first `c` (Python
`split(c, 1)` followed by the 2-tuple unpacking). -/
def splitOnce (c : Char) : List Char → Option (List Char × List Char)
  | [] => none
  | a :: as =>
    if a = c then some ([], as)
    else (splitOnce c as).map (fun p => (a :: p.1, p.2))

/-- Split a character list at every occurrence of `c` (Python `split(c)`). -/
def splitAll (c : Char) : List Char → List (List Char)
  | [] => [[]]
  | a :: as =>
    match splitAll c as with
    | [] => [[]]
    | g :: gs => if a = c then [] :: g :: gs else (a :: g) :: gs

/-- Value of a decimal digit character, `none` for any other character. -/
def digitVal (c : Char) : Option Nat :=
  if '0' ≤ c ∧ c ≤ '9' then some (c.toNat - '0'.toNat) else none

/-- Parse a nonempty all-digit character list as a natural number. -/
def parseNat (l : List Char) : Option Nat :=
  if l.isEmpty then none
  else
    l.foldl
      (fun acc c =>
        match acc, digitVal c with
        | some n, some d => some (n * 10 + d)
        | _, _ => none)
      (some 0)

/-- Python `int(s)` on a simple decimal string: optional sign then digits.
(The Python builtin also tolerates surrounding whitespace and grouping
underscores; those inputs do not occur in the claims considered here.) -/
def parseInt : List Char → Option Int
  | '-' :: rest => (parseNat rest).map (fun n => -(n : Int))
  | '+' :: rest => (parseNat rest).map (fun n => (n : Int))
  | l => (parseNat l).map (fun n => (n : Int))

/-- Embedding of `parse_custom_time` from `chunk.py`.  `none` models the
raised `ValueError` (every exception inside the `try` block is re-raised as
`ValueError`). -/
def parse_custom_time (s : List Char) : Option Int :=
  match splitOnce '.' s with
  | none => none
  | some (_, rest) =>
    match splitAll ':' rest with
    | [h, m, s2] =>
      match parseInt h, parseInt m, parseInt s2 with
      | some hh, some mm, some ss => some (hh * 3600 + mm * 60 + ss)
      | _, _, _ => none
    | _ => none

/-! ### chunk.py, `chunk_by_time`

The rows of the input table are represented by their `TimeSeconds` values (a
list of naturals, in file order).  The code computes
`max_time = df["TimeSeconds"].iloc[-1]` (the time of the LAST row), then for
`start_time in range(0, max_time, chunk_size)` filters the rows with
`start_time <= t < start_time + chunk_size`; empty chunks are skipped and the
emitted file number `chunk_num` is incremented only on emission. -/

/-- Rows of the window with interval index `i`: the rows whose time `t`
satisfies `i*c ≤ t < i*c + c` (the code filters on
`TimeSeconds >= start_time` and `TimeSeconds < end_time`). -/
def windowRows (rows : List Nat) (c i : Nat) : List Nat :=
  rows.filter (fun t => decide (i * c ≤ t) && decide (t < i * c + c))

/-- One emitted chunk: `num` is the file number used in `chunk_{num}.csv`,
`idx` the interval index (`start_time = idx * chunk_size`), `wrows` the rows. -/
structure Emitted where
  num : Nat
  idx : Nat
  wrows : List Nat
deriving DecidableEq, Repr

/-- The emission loop of `chunk_by_time`: iterate over the interval indices
`is`, skip empty windows, and give each emitted window the next file number
(`chunk_num += 1` happens only on emission). -/
def chunkAux (rows : List Nat) (c : Nat) : List Nat → Nat → List Emitted
  | [], _ => []
  | i :: is, k =>
    let w := windowRows rows c i
    if w.isEmpty then chunkAux rows c is k
    else ⟨k, i, w⟩ :: chunkAux rows c is (k + 1)

/-- Time of the last row, `df["TimeSeconds"].iloc[-1]` (the code raises on an
empty table; the default value 0 is never used by the theorems below). -/
def lastTime (rows : List Nat) : Nat := rows.getLastD 0

/-- Embedding of the windowing loop of `chunk_by_time`:
`for start_time in range(0, max_time, chunk_size)` visits the interval indices
`0, 1, ..., ceil(max_time / chunk_size) - 1`. -/
def chunk_by_time (rows : List Nat) (c : Nat) : List Emitted :=
  chunkAux rows c (List.range ((lastTime rows + c - 1) / c)) 0

/-! ### chunk.py, `per_chunk_analysis` (the per-window reducer)

A chunk CSV is modelled as a named list of columns of cells.  A cell read by
`pd.read_csv` is a number, a piece of text, or missing (NaN); a column gets a
numeric dtype exactly when every one of its cells is numeric or missing. -/

/-- One CSV cell as produced by `pd.read_csv`. -/
inductive Cell where
  | num (q : Rat)
  | str (s : String)
  | na
deriving DecidableEq, Repr

/-- One input chunk file: the filename stem (as a character list) and the
columns (name, cells). -/
structure InFile where
  stem : List Char
  cols : List (String × List Cell)
deriving DecidableEq, Repr

/-- Whether a cell counts towards a numeric dtype (NaN does). -/
def isNumericCell : Cell → Bool
  | Cell.num _ => true
  | Cell.str _ => false
  | Cell.na => true

/-- Whether `pd.read_csv` gives the column a numeric dtype
(`pd.api.types.is_numeric_dtype`): every cell numeric or missing. -/
def isNumericCol (cs : List Cell) : Bool := cs.all isNumericCell

/-- The effect of `pd.to_numeric(errors="coerce")` on one cell: text becomes
missing. -/
def coerceCell : Cell → Option Rat
  | Cell.num q => some q
  | Cell.str _ => none
  | Cell.na => none

/-- The identifying columns excluded by the reducer (`non_freq_cols`). -/
def nonFreqCols : List String := ["EpochNo", "Stage", "Time"]

/-- The `freq_cols` selection of `per_chunk_analysis`: columns that are not in
`non_freq_cols` AND already have a numeric dtype. -/
def freqColsOf (f : InFile) : List (String × List Cell) :=
  f.cols.filter (fun p => !(nonFreqCols.contains p.1) && isNumericCol p.2)

/-- `dropna(axis=1, how="all")`: drop every column whose cells are all
missing. -/
def dropAllNa (cols : List (String × List (Option Rat))) :
    List (String × List (Option Rat)) :=
  cols.filter (fun p => !(p.2.all (fun c => c.isNone)))

/-- Column mean ignoring missing values (`Series.mean()` with the default
`skipna=True`); only ever applied to columns with at least one present
value. -/
def meanPresent (xs : List (Option Rat)) : Rat :=
  (xs.filterMap id).sum / ((xs.filterMap id).length : Rat)

/-- Session classification of `per_chunk_analysis`:
`filename_parts = filepath.stem.split("_")` followed by the membership tests
`"baseline" in filename_parts` and `"test" in filename_parts` (exact match
against one underscore-separated component, not a substring search). -/
def sessionType (stem : List Char) : String :=
  let parts := splitAll '_' stem
  if parts.contains "baseline".toList then "baseline"
  else if parts.contains "test".toList then "test"
  else "unknown"

/-- The per-file body of `per_chunk_analysis`: select `freq_cols`, coerce,
drop all-missing columns, and reduce every surviving column to its mean over
the present values; the result row carries the session type.  `none` models
the two `continue` branches (no usable frequency columns). -/
def reduceFile (f : InFile) : Option (String × List (String × Rat)) :=
  if (freqColsOf f).isEmpty then none
  else
    let kept := dropAllNa ((freqColsOf f).map (fun p => (p.1, p.2.map coerceCell)))
    if kept.isEmpty then none
    else some (sessionType f.stem, kept.map (fun p => (p.1, meanPresent p.2)))

/-- The rows collected in `all_chunks_data` and concatenated into the combined
raw file: one reduced row per successfully processed file, in file order. -/
def perChunkRows (files : List InFile) : List (String × List (String × Rat)) :=
  files.filterMap reduceFile

/-- Reading of claim C8 in the words of the specification (comparison
definition, deliberately NOT the code): the frequency-band columns are ALL
columns not in the excluded identifying set, coerced to numeric with
non-numeric entries becoming missing, all-missing columns dropped, and each
remaining column reduced to its mean over the present values. -/
def reduceFileSpecClaim (f : InFile) : List (String × Rat) :=
  (dropAllNa
      ((f.cols.filter (fun p => !(nonFreqCols.contains p.1))).map
        (fun p => (p.1, p.2.map coerceCell)))).map
    (fun p => (p.1, meanPresent p.2))

/-! ### compile.py, `combine_chunks`

A chunk file here is a table with a `Frequency` key column (strings such as
"9Hz") and one value column per session.  `pd.merge(on="Frequency",
how="outer", suffixes=(None, "_dup"))` takes the union of the keys and sorts
it lexicographically (the documented behaviour of an outer merge); the left
frame keeps its column names and a right column whose name collides with a
left column gets the suffix `_dup`.  Key values are assumed distinct within
one file (the spec invariant: rows are keyed by frequency band). -/

/-- A frequency-keyed chunk table: the `Frequency` column and the session
columns. -/
structure FreqTable where
  freq : List String
  cols : List (String × List (Option Rat))
deriving DecidableEq, Repr

/-- Value of a column at key `k`: the entry at the position of `k` in the
frame's own key column, missing when the frame does not have the key (the
NaN fill of an outer join). -/
def valueAt (freq : List String) (vals : List (Option Rat)) (k : String) :
    Option Rat :=
  match freq, vals with
  | [], _ => none
  | _ :: _, [] => none
  | f :: fs, v :: vs => if f = k then v else valueAt fs vs k

/-- Lexicographic string order (comparison of the character lists, i.e. the
code-point comparison Python and pandas use on `str` keys). -/
def keyLe (a b : String) : Prop := a.data ≤ b.data

instance : DecidableRel keyLe :=
  fun a b => (inferInstance : Decidable (a.data ≤ b.data))

instance : IsTrans String keyLe := ⟨fun _ _ _ h1 h2 => le_trans h1 h2⟩

instance : IsTotal String keyLe := ⟨fun a b => le_total a.data b.data⟩

/-- Key column of an outer merge: the union of the two key columns, sorted
lexicographically. -/
def mergeKeys (l r : List String) : List String :=
  List.insertionSort keyLe (l ++ r.filter (fun k => !(l.contains k)))

/-- Embedding of one `merged_df.merge(df, on="Frequency", how="outer",
suffixes=(None, "_dup"))` step. -/
def mergeOuter (l r : FreqTable) : FreqTable :=
  let ks := mergeKeys l.freq r.freq
  let lnames := l.cols.map (fun p => p.1)
  { freq := ks
    cols :=
      l.cols.map (fun p => (p.1, ks.map (valueAt l.freq p.2))) ++
        r.cols.map (fun p =>
          (if lnames.contains p.1 then p.1 ++ "_dup" else p.1,
            ks.map (valueAt r.freq p.2))) }

/-- Insertion-ordered collection of the base column names, mirroring the
`defaultdict` `col_counts` (a name is recorded at its first appearance). -/
def insertNew (acc : List String) (n : String) : List String :=
  if acc.contains n then acc else acc ++ [n]

/-- All non-`Frequency` column names of the input files in first-appearance
order (the iteration order of `col_counts`). -/
def colNamesInOrder (files : List FreqTable) : List String :=
  files.foldl (fun acc f => (f.cols.map (fun p => p.1)).foldl insertNew acc) []

/-- Row-wise mean over a list of columns (`DataFrame.mean(axis=1)`, skipping
missing entries; a row that is missing in every column stays missing). -/
def rowwiseMean (cols : List (List (Option Rat))) (nrows : Nat) :
    List (Option Rat) :=
  (List.range nrows).map (fun j =>
    let vs := (cols.map (fun col => col.getD j none)).filterMap id
    if vs.isEmpty then none else some (vs.sum / (vs.length : Rat)))

/-- Embedding of the per-chunk body of `combine_chunks`: fold the outer merge
over the files, then for every base name average exactly those merged columns
whose name STARTS WITH the base name (`c.startswith(col)`). -/
def combine_chunks (files : List FreqTable) : FreqTable :=
  match files with
  | [] => ⟨[], []⟩
  | f :: rest =>
    let merged := rest.foldl mergeOuter f
    let bases := colNamesInOrder (f :: rest)
    ⟨merged.freq,
      bases.map (fun b =>
        (b,
          rowwiseMean
            ((merged.cols.filter
                (fun p => b.toList.isPrefixOf p.1.toList)).map (fun p => p.2))
            merged.freq.length))⟩

/-! ### normalize.py, `normalize_data`

The combined raw table is modelled by the `SessionType` tag column (`tags`,
one entry per row) and the frequency columns (`cols`).  Pandas `mean`/`std`
skip missing entries; `std` uses the sample deviation (`ddof=1`), so for
fewer than two present values it is NaN and the guard `std > 0` is false.
The output values live in `ℝ` because of the square root. -/

/-- The present (non-missing) values of a column. -/
def presentVals (xs : List (Option Rat)) : List Rat := xs.filterMap id

/-- Column mean over the present values (`Series.mean()`). -/
def qmean (xs : List (Option Rat)) : Rat :=
  (presentVals xs).sum / ((presentVals xs).length : Rat)

/-- Sample variance over the present values (the square of `Series.std()`,
`ddof=1`). -/
def qvar (xs : List (Option Rat)) : Rat :=
  ((presentVals xs).map (fun v => (v - qmean xs) ^ 2)).sum /
    (((presentVals xs).length : Rat) - 1)

/-- The guard `std_val > 0` of `normalize_data`: with fewer than two present
values `Series.std()` is NaN and the comparison is false; with at least two
it equals the square root of the sample variance, which is positive exactly
when the variance is. -/
def stdPos (xs : List (Option Rat)) : Bool :=
  decide (2 ≤ (presentVals xs).length) && decide (0 < qvar xs)

/-- Step 1 of `normalize_data` on one frequency column: z-score when
`std_val > 0`, otherwise subtract the mean only.  Missing cells stay
missing. -/
noncomputable def zscoreCol (xs : List (Option Rat)) : List (Option Real) :=
  if stdPos xs then
    xs.map (Option.map (fun (v : Rat) =>
      ((v : Real) - (qmean xs : Real)) / Real.sqrt ((qvar xs : Real))))
  else xs.map (Option.map (fun (v : Rat) => ((v : Real) - (qmean xs : Real))))

/-- Step 1 of `normalize_data` on the whole table (every frequency column is
z-scored; the metadata columns are untouched). -/
noncomputable def normalizeStep1 (cols : List (String × List (Option Rat))) :
    List (String × List (Option Real)) :=
  cols.map (fun p => (p.1, zscoreCol p.2))

/-- The present values of a real-valued column. -/
def rpresent (xs : List (Option Real)) : List Real := xs.filterMap id

/-- Mean of a real-valued column over the present values. -/
noncomputable def rmean (xs : List (Option Real)) : Real :=
  (rpresent xs).sum / ((rpresent xs).length : Real)

/-- Sample variance of a real-valued column over the present values. -/
noncomputable def rvar (xs : List (Option Real)) : Real :=
  ((rpresent xs).map (fun v => (v - rmean xs) ^ 2)).sum /
    (((rpresent xs).length : Real) - 1)

/-- Restriction of a column to the rows whose `SessionType` equals the
baseline label (`normalized_df[normalized_df["SessionType"] == bl]`). -/
def selectBaseline (tags : List String) (bl : String)
    (xs : List (Option Real)) : List (Option Real) :=
  (tags.zip xs).filterMap (fun p => if p.1 = bl then some p.2 else none)

open scoped Classical in
/-- Step 3 of `normalize_data` on one (already z-scored) column: rescale every
row by the baseline mean and standard deviation, with the same zero-std
fallback as step 1. -/
noncomputable def rescaleCol (tags : List String) (bl : String)
    (xs : List (Option Real)) : List (Option Real) :=
  let b := selectBaseline tags bl xs
  if 2 ≤ (rpresent b).length ∧ 0 < rvar b then
    xs.map (Option.map (fun v => (v - rmean b) / Real.sqrt (rvar b)))
  else xs.map (Option.map (fun v => v - rmean b))

/-- Embedding of `normalize_data`: step 1 z-scores every frequency column;
when no row carries the baseline label the step-1 table is saved as is and
the function reports success (`return True`), otherwise every column is
additionally baseline-rescaled.  The boolean is the return value of the
Python function. -/
noncomputable def normalize_data (tags : List String)
    (cols : List (String × List (Option Rat))) (bl : String) :
    List (String × List (Option Real)) × Bool :=
  let step1 := normalizeStep1 cols
  if bl ∈ tags then
    (step1.map (fun p => (p.1, rescaleCol tags bl p.2)), true)
  else (step1, true)

/-! ## Helper lemmas -/

theorem splitOnce_eq_none {c : Char} {s : List Char} (h : c ∉ s) :
    splitOnce c s = none := by
  induction s with
  | nil => rfl
  | cons a as ih =>
    simp only [List.mem_cons, not_or] at h
    have hac : ¬(a = c) := fun hh => h.1 hh.symm
    simp [splitOnce, hac, ih h.2]

theorem presentVals_replicate (n : Nat) (v : Rat) :
    presentVals (List.replicate n (some v)) = List.replicate n v := by
  induction n with
  | zero => rfl
  | succ n ih => simp [presentVals, List.replicate_succ] at ih ⊢

theorem qmean_replicate {n : Nat} (hn : n ≠ 0) (v : Rat) :
    qmean (List.replicate n (some v)) = v := by
  have hns : ((n : Rat)) ≠ 0 := Nat.cast_ne_zero.mpr hn
  simp [qmean, presentVals_replicate, List.sum_replicate, nsmul_eq_mul,
    mul_div_assoc, mul_div_cancel_left₀ _ hns]

theorem qvar_replicate {n : Nat} (hn : n ≠ 0) (v : Rat) :
    qvar (List.replicate n (some v)) = 0 := by
  simp [qvar, presentVals_replicate, qmean_replicate hn, List.map_replicate,
    List.sum_replicate]

theorem stdPos_replicate {n : Nat} (hn : n ≠ 0) (v : Rat) :
    stdPos (List.replicate n (some v)) = false := by
  simp [stdPos, qvar_replicate hn]

theorem zscoreCol_single (v : Rat) : zscoreCol [some v] = [some 0] := by
  have hm : qmean [some v] = v := by simp [qmean, presentVals]
  have hs : stdPos [some v] = false := by simp [stdPos, presentVals]
  simp [zscoreCol, hs, hm]

theorem stdPos_single (v : Rat) : stdPos [some v] = false := by
  simp [stdPos, presentVals]

theorem qvar_one_three : qvar [some (1 : Rat), some 3] = 2 := by
  simp only [qvar, qmean, presentVals, List.filterMap_cons, id_eq,
    List.filterMap_nil, List.map_cons, List.map_nil, List.sum_cons,
    List.sum_nil, List.length_cons, List.length_nil]
  norm_num

theorem stdPos_one_three : stdPos [some (1 : Rat), some 3] = true := by
  simp [stdPos, presentVals, qvar_one_three]

theorem mem_mergeKeys {l r : List String} {k : String} :
    k ∈ mergeKeys l r ↔ k ∈ l ∨ k ∈ r := by
  simp only [mergeKeys, List.mem_insertionSort, List.mem_append,
    List.mem_filter, Bool.not_eq_true']
  constructor
  · rintro (h | h)
    · exact Or.inl h
    · exact Or.inr h.1
  · rintro (h | h)
    · exact Or.inl h
    · by_cases ha : k ∈ l
      · exact Or.inl ha
      · refine Or.inr ⟨h, ?_⟩
        rw [← Bool.not_eq_true]
        intro hc
        exact ha (List.elem_iff.mp hc)

theorem foldl_mergeOuter_freq_mem (files : List FreqTable) (acc : FreqTable)
    (k : String) :
    k ∈ (files.foldl mergeOuter acc).freq ↔
      k ∈ acc.freq ∨ ∃ t ∈ files, k ∈ t.freq := by
  induction files generalizing acc with
  | nil => simp
  | cons f fs ih =>
    rw [List.foldl_cons, ih]
    have hstep : k ∈ (mergeOuter acc f).freq ↔ k ∈ acc.freq ∨ k ∈ f.freq :=
      mem_mergeKeys
    rw [hstep]
    constructor
    · rintro ((h | h) | ⟨t, ht, hk⟩)
      · exact Or.inl h
      · exact Or.inr ⟨f, List.mem_cons_self _ _, h⟩
      · exact Or.inr ⟨t, List.mem_cons_of_mem _ ht, hk⟩
    · rintro (h | ⟨t, ht, hk⟩)
      · exact Or.inl (Or.inl h)
      · rcases List.mem_cons.mp ht with rfl | hmem
        · exact Or.inl (Or.inr hk)
        · exact Or.inr ⟨t, hmem, hk⟩

theorem foldl_mergeOuter_freq_sorted (files : List FreqTable) (acc f : FreqTable) :
    List.Sorted keyLe (List.foldl mergeOuter acc (f :: files)).freq := by
  induction files generalizing acc f with
  | nil =>
    rw [List.foldl_cons, List.foldl_nil]
    exact List.sorted_insertionSort keyLe _
  | cons g gs ih =>
    rw [List.foldl_cons]
    exact ih _ g

/-! ## Claims -/

/-- C9: every input string without a dot character makes `parse_custom_time`
fail (a `ValueError`, modelled by `none`): the parser first splits off
everything before the first dot, and the tuple unpacking of `split(".", 1)`
already fails when no dot is present, so a bare HH:MM:SS string is
rejected. -/
theorem c9_no_dot_rejected (s : List Char) (h : '.' ∉ s) :
    parse_custom_time s = none := by
  simp [parse_custom_time, splitOnce_eq_none h]

/-- Witness for C9 at the concrete dot-free input "12:34:56". -/
theorem c9_no_dot_rejected_witness :
    ('.' ∉ "12:34:56".toList) ∧ parse_custom_time "12:34:56".toList = none :=
  ⟨by decide, c9_no_dot_rejected _ (by decide)⟩

/-- C7: when no row's session-type tag equals the configured baseline label,
`normalize_data` emits the step-1 z-scored table unchanged as the final output
and reports success (`return True`); the baseline rescaling of step 3 is not
applied. -/
theorem c7_baseline_absent_fallback (tags : List String)
    (cols : List (String × List (Option Rat))) (bl : String)
    (h : ∀ t ∈ tags, t ≠ bl) :
    normalize_data tags cols bl = (normalizeStep1 cols, true) := by
  have hb : bl ∉ tags := fun hm => h bl hm rfl
  simp [normalize_data, hb]

/-- Witness for C7: a table whose only row is tagged "test" with baseline
label "BL1". -/
theorem c7_baseline_absent_fallback_witness :
    (∀ t ∈ (["test"] : List String), t ≠ "BL1") ∧
      normalize_data ["test"] [("10Hz", [some 1, some 2])] "BL1" =
        (normalizeStep1 [("10Hz", [some 1, some 2])], true) :=
  ⟨by decide, c7_baseline_absent_fallback _ _ _ (by decide)⟩

/-- C6: in step 1 of `normalize_data`, a frequency column whose standard
deviation is exactly zero (all values identical) is only mean-subtracted, so
its output is exactly zero in every row and no division by zero happens; a
column whose guard `std > 0` holds is z-scored as `(value - mean) / std`. -/
theorem c6_zero_std_fallback :
    (∀ (n : Nat) (v : Rat), 2 ≤ n →
        zscoreCol (List.replicate n (some v)) = List.replicate n (some 0)) ∧
      (∀ xs : List (Option Rat), stdPos xs = true →
        zscoreCol xs =
          xs.map (Option.map (fun (v : Rat) =>
            ((v : Real) - (qmean xs : Real)) / Real.sqrt ((qvar xs : Real))))) := by
  constructor
  · intro n v hn
    have hn0 : n ≠ 0 := by omega
    simp [zscoreCol, stdPos_replicate hn0, qmean_replicate hn0,
      List.map_replicate]
  · intro xs h
    simp [zscoreCol, h]

/-- Witness for C6: the constant column `[5, 5, 5]` maps to `[0, 0, 0]`, and
the column `[1, 3]` has a positive standard deviation and is z-scored. -/
theorem c6_zero_std_fallback_witness :
    ((2 : Nat) ≤ 3 ∧
        zscoreCol (List.replicate 3 (some (5 : Rat))) =
          List.replicate 3 (some 0)) ∧
      (stdPos [some 1, some 3] = true ∧
        zscoreCol [some 1, some 3] =
          [some 1, some 3].map (Option.map (fun (v : Rat) =>
            ((v : Real) - (qmean [some 1, some 3] : Real)) /
              Real.sqrt ((qvar [some 1, some 3] : Real))))) :=
  ⟨⟨by norm_num, c6_zero_std_fallback.1 3 5 (by norm_num)⟩,
    ⟨stdPos_one_three, c6_zero_std_fallback.2 [some 1, some 3] stdPos_one_three⟩⟩

/-- C10: on a table with exactly one data row, step 1 of `normalize_data`
takes the subtract-mean branch in every frequency column (the sample standard
deviation of a single value is NaN, so the guard `std > 0` is false), the
step-1 output is exactly zero in every frequency column, and no missing value
is introduced. -/
theorem c10_single_row_zero (cols : List (String × Rat)) :
    normalizeStep1 (cols.map (fun p => (p.1, [some p.2]))) =
        cols.map (fun p => (p.1, ([some (0 : Real)] : List (Option Real)))) ∧
      ∀ v : Rat, stdPos [some v] = false := by
  constructor
  · simp [normalizeStep1, List.map_map, Function.comp, zscoreCol_single]
  · exact stdPos_single

theorem chunkAux_map_num (rows : List Nat) (c : Nat) (is : List Nat) (k : Nat) :
    (chunkAux rows c is k).map (fun e => e.num) =
      List.range' k (chunkAux rows c is k).length := by
  induction is generalizing k with
  | nil => rfl
  | cons i is ih =>
    simp only [chunkAux]
    by_cases h : (windowRows rows c i).isEmpty
    · simp [h, ih]
    · simp [h, ih, List.range'_succ]

theorem chunkAux_nonempty (rows : List Nat) (c : Nat) (is : List Nat) (k : Nat) :
    ∀ e ∈ chunkAux rows c is k, e.wrows.isEmpty = false := by
  induction is generalizing k with
  | nil => intro e he; simp [chunkAux] at he
  | cons i is ih =>
    intro e he
    simp only [chunkAux] at he
    by_cases h : (windowRows rows c i).isEmpty
    · rw [if_pos h] at he; exact ih _ e he
    · rw [if_neg h] at he
      rcases List.mem_cons.mp he with rfl | hmem
      · simpa using h
      · exact ih _ e hmem

theorem getLastD_mem (l : List Nat) (d : Nat) (h : l ≠ []) : l.getLastD d ∈ l := by
  induction l generalizing d with
  | nil => exact absurd rfl h
  | cons a as ih =>
    rw [List.getLastD_cons]
    cases has : as with
    | nil => simp
    | cons b bs =>
      rw [← has]
      exact List.mem_cons_of_mem a (ih a (by simp [has]))

theorem mem_le_getLastD {rows : List Nat} (h : List.Sorted (· ≤ ·) rows)
    {t : Nat} (ht : t ∈ rows) : ∀ d, t ≤ rows.getLastD d := by
  induction rows with
  | nil => cases ht
  | cons a as ih =>
    intro d
    rw [List.getLastD_cons]
    rcases List.mem_cons.mp ht with rfl | hmem
    · by_cases hn : as = []
      · subst hn; simp
      · exact (List.sorted_cons.mp h).1 _ (getLastD_mem as t hn)
    · exact ih (List.sorted_cons.mp h).2 hmem a

theorem mem_windowRows {rows : List Nat} {c i t : Nat} :
    t ∈ windowRows rows c i ↔ t ∈ rows ∧ i * c ≤ t ∧ t < i * c + c := by
  simp [windowRows]

theorem chunkAux_countP (rows : List Nat) (c t : Nat) (is : List Nat) (k : Nat) :
    (chunkAux rows c is k).countP (fun e => decide (t ∈ e.wrows)) =
      is.countP (fun i => decide (t ∈ windowRows rows c i)) := by
  induction is generalizing k with
  | nil => rfl
  | cons i is ih =>
    simp only [chunkAux, List.countP_cons]
    by_cases h : (windowRows rows c i).isEmpty
    · rw [if_pos h, ih]
      have hf : t ∈ windowRows rows c i ↔ False := by
        simp [List.isEmpty_iff.mp h]
      simp [hf]
    · rw [if_neg h, List.countP_cons, ih]

theorem chunkAux_mem (rows : List Nat) (c : Nat) (is : List Nat) (k : Nat) :
    ∀ e ∈ chunkAux rows c is k, e.idx ∈ is ∧ e.wrows = windowRows rows c e.idx := by
  induction is generalizing k with
  | nil => intro e he; simp [chunkAux] at he
  | cons i is ih =>
    intro e he
    simp only [chunkAux] at he
    by_cases h : (windowRows rows c i).isEmpty
    · rw [if_pos h] at he
      obtain ⟨h1, h2⟩ := ih _ e he
      exact ⟨List.mem_cons_of_mem _ h1, h2⟩
    · rw [if_neg h] at he
      rcases List.mem_cons.mp he with rfl | hmem
      · exact ⟨List.mem_cons_self _ _, rfl⟩
      · obtain ⟨h1, h2⟩ := ih _ e hmem
        exact ⟨List.mem_cons_of_mem _ h1, h2⟩

theorem countP_range_window (rows : List Nat) {c : Nat} (t : Nat) (hc : 0 < c)
    (ht : t ∈ rows) (n : Nat) :
    (List.range n).countP (fun i => decide (t ∈ windowRows rows c i)) =
      if t / c < n then 1 else 0 := by
  have hwin : ∀ i : Nat, t ∈ windowRows rows c i ↔ i = t / c := by
    intro i
    rw [mem_windowRows]
    constructor
    · rintro ⟨-, h1, h2⟩
      have hle : i ≤ t / c := (Nat.le_div_iff_mul_le hc).mpr h1
      have hlt : t / c < i + 1 := by
        rw [Nat.div_lt_iff_lt_mul hc]
        calc t < i * c + c := h2
          _ = (i + 1) * c := by ring
      omega
    · rintro rfl
      exact ⟨ht, Nat.div_mul_le_self t c, Nat.lt_div_mul_add hc⟩
  induction n with
  | zero => simp
  | succ n ih =>
    rw [List.range_succ, List.countP_append, ih]
    by_cases h : t / c < n
    · have hne : ¬ t ∈ windowRows rows c n := fun hmem => by
        have := (hwin n).mp hmem; omega
      have h1 : t / c < n + 1 := by omega
      simp [List.countP_cons, hne, h, h1]
    · by_cases h2 : t / c = n
      · have hmem : t ∈ windowRows rows c n := (hwin n).mpr h2.symm
        have h1 : t / c < n + 1 := by omega
        simp [List.countP_cons, hmem, h, h1]
      · have hne : ¬ t ∈ windowRows rows c n := fun hmem => h2 ((hwin n).mp hmem).symm
        have h1 : ¬ t / c < n + 1 := by omega
        simp [List.countP_cons, hne, h, h1]

theorem ceil_div_eq_floor_succ {c m : Nat} (hc : 0 < c) (hnd : ¬ c ∣ m) :
    (m + c - 1) / c = m / c + 1 := by
  have h1 := Nat.div_add_mod m c
  have h2 : m % c ≠ 0 := fun h => hnd (Nat.dvd_of_mod_eq_zero h)
  have h3 : m % c < c := Nat.mod_lt _ hc
  apply Nat.le_antisymm
  · have hlt : m + c - 1 < (m / c + 2) * c := by
      have e1 : (m / c + 2) * c = c * (m / c) + 2 * c := by ring
      omega
    have := (Nat.div_lt_iff_lt_mul hc).mpr hlt
    omega
  · rw [Nat.le_div_iff_mul_le hc]
    have e1 : (m / c + 1) * c = c * (m / c) + c := by ring
    omega

/-- Supporting analysis for the windowing boundary: whenever `chunk_size` does
NOT divide the last timestamp, `chunk_by_time` behaves exactly as the spec
describes — every row lies in exactly one emitted window, each emitted window
holds exactly the rows of its half-open interval, and the interval indices
stay within `0 .. max_time / chunk_size`.  The row loss demonstrated below
therefore happens precisely at the divisibility boundary. -/
theorem chunk_by_time_partitions (rows : List Nat) (c : Nat) (hc : 0 < c)
    (hmono : List.Sorted (· ≤ ·) rows) (hnd : ¬ c ∣ lastTime rows) :
    (∀ t ∈ rows, (chunk_by_time rows c).countP (fun e => decide (t ∈ e.wrows)) = 1) ∧
      ∀ e ∈ chunk_by_time rows c,
        e.wrows = windowRows rows c e.idx ∧ e.idx ≤ lastTime rows / c := by
  have hceil : (lastTime rows + c - 1) / c = lastTime rows / c + 1 :=
    ceil_div_eq_floor_succ hc hnd
  constructor
  · intro t ht
    rw [chunk_by_time, chunkAux_countP, countP_range_window rows t hc ht]
    have hle : t ≤ lastTime rows := mem_le_getLastD hmono ht 0
    have hdiv : t / c ≤ lastTime rows / c := Nat.div_le_div_right hle
    rw [if_pos (by omega)]
  · intro e he
    obtain ⟨hi, hw⟩ := chunkAux_mem rows c _ 0 e he
    refine ⟨hw, ?_⟩
    have := List.mem_range.mp hi
    omega

/-- Non-vacuity check for the hypotheses of `chunk_by_time_partitions`: a
concrete sorted input whose last time 12 is not a multiple of 10, evaluated. -/
theorem chunk_by_time_partitions_example :
    (chunk_by_time [0, 5, 12] 10).countP (fun e => decide ((5 : Nat) ∈ e.wrows)) = 1 ∧
      chunk_by_time [0, 5, 12] 10 = [⟨0, 0, [0, 5]⟩, ⟨1, 1, [12]⟩] := by decide

/-- C1: `chunk_by_time` iterates `range(0, max_time, chunk_size)`; when
`chunk_size` divides the last timestamp, the row at time `max_time` falls in
no emitted window.  With rows at times 0 and 10 and `chunk_size = 10`
(monotone, `max_time = 10`), only the window `[0, 10)` is emitted and the
final row (time 10) is contained in no emitted window, although the claimed
window `i = floor(10/10) = 1` would hold it. -/
theorem c1_final_boundary_row_dropped :
    lastTime [0, 10] = 10 ∧
      chunk_by_time [0, 10] 10 = [⟨0, 0, [0]⟩] ∧
        (chunk_by_time [0, 10] 10).all (fun e => !(e.wrows.contains 10)) = true := by
  decide

/-- C2: the averaging step of `combine_chunks` groups merged columns by
`c.startswith(col)`, so with one animal contributing a column "test1" and
another "test10", the "test10" values are folded into the "test1" output
column: the emitted "test1" column is the mean of both (here `(1+3)/2 = 2`),
although the two session names are distinct. -/
theorem c2_startswith_groups_test1_with_test10 :
    combine_chunks [⟨["f"], [("test1", [some 1])]⟩, ⟨["f"], [("test10", [some 3])]⟩] =
      ⟨["f"], [("test1", [some 2]), ("test10", [some 3])]⟩ := by
  simp +decide only [combine_chunks, mergeOuter, mergeKeys, valueAt, rowwiseMean,
    colNamesInOrder, insertNew, List.foldl_cons, List.foldl_nil, List.filter_cons,
    List.filter_nil, List.map_cons, List.map_nil, List.contains_cons,
    List.insertionSort, List.orderedInsert, List.range_succ, List.range_zero,
    List.filterMap_cons, List.filterMap_nil, List.append_nil, List.nil_append,
    List.singleton_append, List.cons_append, List.sum_cons, List.sum_nil,
    List.length_cons, List.length_nil, if_true, if_false,
    id_eq, List.getD, List.get?_cons_zero, List.getElem?_cons_zero,
    List.getElem?_nil, Option.getD_some,
    Option.getD_none, List.isEmpty_cons, List.isEmpty_nil]
  norm_num

/-- C3 counterexample: two chunk files with bands 9Hz, 20Hz, 100Hz produce a
compiled table whose Frequency column is in lexicographic string order
100Hz, 20Hz, 9Hz (the outer merge sorts the keys as strings; nothing strips
the unit suffix), not in the claimed ascending numeric order 9, 20, 100. -/
theorem c3_numeric_sort_refuted :
    (combine_chunks [⟨["9Hz", "20Hz", "100Hz"], [("a", [some 1, some 2, some 3])]⟩,
        ⟨["9Hz", "20Hz", "100Hz"], [("b", [some 4, some 5, some 6])]⟩]).freq =
      ["100Hz", "20Hz", "9Hz"] ∧
      (["100Hz", "20Hz", "9Hz"] : List String) ≠ ["9Hz", "20Hz", "100Hz"] := by
  constructor
  · decide
  · decide

/-- C3 amended: the Frequency rows of a compiled table are in the order the
outer merge produces — when at least two files are merged, the union of the
key columns sorted lexicographically as strings (no unit suffix is stripped
and no numeric comparison happens), and for a single file the file's own
order. -/
theorem c3_lexicographic_merge_order (a b : FreqTable) (files : List FreqTable) :
    List.Sorted keyLe (combine_chunks (a :: b :: files)).freq ∧
      (∀ k, k ∈ (combine_chunks (a :: b :: files)).freq ↔
          k ∈ a.freq ∨ k ∈ b.freq ∨ ∃ t ∈ files, k ∈ t.freq) ∧
        ∀ t : FreqTable, (combine_chunks [t]).freq = t.freq := by
  refine ⟨?_, ?_, fun t => rfl⟩
  · exact foldl_mergeOuter_freq_sorted files a b
  · intro k
    show k ∈ ((b :: files).foldl mergeOuter a).freq ↔ _
    rw [foldl_mergeOuter_freq_mem]
    constructor
    · rintro (h | ⟨t, ht, hk⟩)
      · exact Or.inl h
      · rcases List.mem_cons.mp ht with rfl | hmem
        · exact Or.inr (Or.inl hk)
        · exact Or.inr (Or.inr ⟨t, hmem, hk⟩)
    · rintro (h | h | ⟨t, ht, hk⟩)
      · exact Or.inl h
      · exact Or.inr ⟨b, List.mem_cons_self _ _, h⟩
      · exact Or.inr ⟨t, List.mem_cons_of_mem _ ht, hk⟩

/-- C4 counterexample: with rows at times 0 and 25 and `chunk_size = 10`, the
middle window `[10, 20)` is empty and skipped, but the second emitted window
(interval index 2, i.e. `[20, 30)`) is written with the renumbered file
number 1, not with its interval index 2: emitted indices are NOT preserved
with gaps in the time variant. -/
theorem c4_gapped_indices_refuted :
    chunk_by_time [0, 25] 10 = [⟨0, 0, [0]⟩, ⟨1, 2, [25]⟩] := by decide

/-- C4 amended: in time-mode windowing empty windows are never emitted, and
the file numbers attached to the emitted windows are renumbered contiguously
starting at 0 (`chunk_num` is incremented only on emission), exactly as in
the row-count variant the spec describes. -/
theorem c4_contiguous_renumbering (rows : List Nat) (c : Nat) :
    (chunk_by_time rows c).map (fun e => e.num) =
        List.range (chunk_by_time rows c).length ∧
      (chunk_by_time rows c).all (fun e => !e.wrows.isEmpty) = true := by
  constructor
  · rw [List.range_eq_range']
    exact chunkAux_map_num rows c _ 0
  · rw [List.all_eq_true]
    intro e he
    simp [chunkAux_nonempty rows c _ 0 e he]

/-- C5 counterexample: the stem "cFFTbaseline_00" contains "baseline" as a
contiguous substring (it is literally "cFFT" ++ "baseline" ++ "_00"), yet
`per_chunk_analysis` classifies it as "unknown", because the code tests exact
membership of the token "baseline" among the underscore-separated components,
not substring containment. -/
theorem c5_substring_containment_refuted :
    "cFFTbaseline_00".toList =
        "cFFT".toList ++ "baseline".toList ++ "_00".toList ∧
      sessionType "cFFTbaseline_00".toList = "unknown" := by
  constructor
  · decide
  · decide

/-- C5 amended: the session identifier is decided by exact membership of the
tokens "baseline" / "test" among the underscore-split components of the
filename stem ("baseline" checked first), with fallback "unknown"; every
successfully reduced row — the "unknown" ones included — is appended to the
combined output. -/
theorem c5_token_membership_classification (stem : List Char)
    (files : List InFile) (f : InFile) (r : String × List (String × Rat)) :
    ("baseline".toList ∈ splitAll '_' stem → sessionType stem = "baseline") ∧
      ("baseline".toList ∉ splitAll '_' stem →
        "test".toList ∈ splitAll '_' stem → sessionType stem = "test") ∧
      ("baseline".toList ∉ splitAll '_' stem →
        "test".toList ∉ splitAll '_' stem → sessionType stem = "unknown") ∧
      (f ∈ files → reduceFile f = some r → r ∈ perChunkRows files) := by
  refine ⟨?_, ?_, ?_, ?_⟩
  · intro h
    unfold sessionType
    rw [if_pos (List.elem_iff.mpr h)]
  · intro h1 h2
    unfold sessionType
    rw [if_neg (fun hc => h1 (List.elem_iff.mp hc)),
      if_pos (List.elem_iff.mpr h2)]
  · intro h1 h2
    unfold sessionType
    rw [if_neg (fun hc => h1 (List.elem_iff.mp hc)),
      if_neg (fun hc => h2 (List.elem_iff.mp hc))]
  · intro hf hr
    exact List.mem_filterMap.mpr ⟨f, hf, hr⟩

/-- Witness for C5: a stem with neither token is classified "unknown", and
the reduced row of such a file still appears in the combined output. -/
theorem c5_token_membership_classification_witness :
    sessionType "Traces_cFFT_foo_00".toList = "unknown" ∧
      ("unknown", [("10Hz", (1 : Rat))]) ∈
        perChunkRows [⟨"Traces_cFFT_foo_00".toList, [("10Hz", [Cell.num 1])]⟩] := by
  have hr : reduceFile ⟨"Traces_cFFT_foo_00".toList, [("10Hz", [Cell.num 1])]⟩ =
      some ("unknown", [("10Hz", (1 : Rat))]) := by
    simp +decide only [reduceFile, freqColsOf, nonFreqCols, isNumericCol,
      isNumericCell, coerceCell, dropAllNa, meanPresent, sessionType, splitAll,
      List.filter_cons, List.filter_nil, List.map_cons, List.map_nil,
      List.all_cons, List.all_nil, List.filterMap_cons, List.filterMap_nil,
      List.isEmpty_cons, List.isEmpty_nil, List.sum_cons, List.sum_nil,
      List.length_cons, List.length_nil, id_eq, if_true, if_false,
      Option.isNone_some, Bool.not_false, Bool.not_true, Bool.and_self]
    norm_num
  exact ⟨(c5_token_membership_classification "Traces_cFFT_foo_00".toList
        [⟨"Traces_cFFT_foo_00".toList, [("10Hz", [Cell.num 1])]⟩]
        ⟨"Traces_cFFT_foo_00".toList, [("10Hz", [Cell.num 1])]⟩
        ("unknown", [("10Hz", (1 : Rat))])).2.2.1 (by decide) (by decide),
    (c5_token_membership_classification "Traces_cFFT_foo_00".toList
        [⟨"Traces_cFFT_foo_00".toList, [("10Hz", [Cell.num 1])]⟩]
        ⟨"Traces_cFFT_foo_00".toList, [("10Hz", [Cell.num 1])]⟩
        ("unknown", [("10Hz", (1 : Rat))])).2.2.2 (by decide) hr⟩

/-- C8 counterexample: a window table with a mixed text/number column "10Hz"
(cells "x" and 4).  The code pre-filters on numeric dtype, so the column is
dropped before coercion and the reducer yields nothing; under the claimed
behaviour (coerce every non-excluded column, text becoming missing) the
column would survive with mean 4. -/
theorem c8_object_dtype_column_refuted :
    reduceFile ⟨"Traces_cFFT_test_00".toList,
        [("EpochNo", [Cell.num 1, Cell.num 2]),
          ("10Hz", [Cell.str "x", Cell.num 4])]⟩ = none ∧
      reduceFileSpecClaim ⟨"Traces_cFFT_test_00".toList,
        [("EpochNo", [Cell.num 1, Cell.num 2]),
          ("10Hz", [Cell.str "x", Cell.num 4])]⟩ = [("10Hz", 4)] := by
  constructor
  · decide
  · simp +decide only [reduceFileSpecClaim, nonFreqCols, coerceCell, dropAllNa,
      meanPresent, List.filter_cons, List.filter_nil, List.map_cons,
      List.map_nil, List.all_cons, List.all_nil, List.filterMap_cons,
      List.filterMap_nil, List.sum_cons, List.sum_nil, List.length_cons,
      List.length_nil, id_eq, if_true, if_false, Option.isNone_some,
      Option.isNone_none, Bool.not_false, Bool.not_true, Bool.and_self,
      Bool.and_false, Bool.and_true]
    norm_num

/-- C8 amended: when the reducer succeeds, its frequency-band columns are
exactly the columns that are (i) not in the excluded identifying set, (ii)
already of numeric dtype (the code filters on `is_numeric_dtype` BEFORE the
coercion, so the coercion never changes a value), and (iii) not entirely
missing; each such column is reduced to the arithmetic mean over its present
values, and the attached session label comes from the filename stem. -/
theorem c8_numeric_dtype_reducer (f : InFile) (s : String)
    (bands : List (String × Rat)) (h : reduceFile f = some (s, bands)) :
    s = sessionType f.stem ∧
      bands =
        ((f.cols.filter (fun p => !(nonFreqCols.contains p.1) && isNumericCol p.2)).filter
            (fun p => !((p.2.map coerceCell).all (fun c => c.isNone)))).map
          (fun p => (p.1, meanPresent (p.2.map coerceCell))) := by
  simp only [reduceFile] at h
  split at h
  · exact absurd h (by simp)
  · split at h
    · exact absurd h (by simp)
    · rw [Option.some.injEq, Prod.mk.injEq] at h
      obtain ⟨h1, h2⟩ := h
      refine ⟨h1.symm, ?_⟩
      rw [← h2, dropAllNa, freqColsOf, List.filter_map, List.map_map]
      rfl

/-- Witness for C8: a file with an excluded "Stage" column and a numeric
"10Hz" column reduces to the session "test" with band mean `(1+3)/2 = 2`. -/
theorem c8_numeric_dtype_reducer_witness :
    reduceFile ⟨"Traces_cFFT_test_00".toList,
        [("Stage", [Cell.str "R", Cell.str "R"]),
          ("10Hz", [Cell.num 1, Cell.num 3])]⟩ =
        some ("test", [("10Hz", (2 : Rat))]) ∧
      "test" = sessionType ("Traces_cFFT_test_00".toList) := by
  have h : reduceFile ⟨"Traces_cFFT_test_00".toList,
      [("Stage", [Cell.str "R", Cell.str "R"]),
        ("10Hz", [Cell.num 1, Cell.num 3])]⟩ =
      some ("test", [("10Hz", (2 : Rat))]) := by
    simp +decide only [reduceFile, freqColsOf, nonFreqCols, isNumericCol,
      isNumericCell, coerceCell, dropAllNa, meanPresent, sessionType, splitAll,
      List.filter_cons, List.filter_nil, List.map_cons, List.map_nil,
      List.all_cons, List.all_nil, List.filterMap_cons, List.filterMap_nil,
      List.isEmpty_cons, List.isEmpty_nil, List.sum_cons, List.sum_nil,
      List.length_cons, List.length_nil, id_eq, if_true, if_false,
      Option.isNone_some, Bool.not_false, Bool.not_true, Bool.and_self,
      Bool.and_false, Bool.and_true, Bool.false_and, Bool.true_and]
    norm_num
  exact ⟨h, (c8_numeric_dtype_reducer _ _ _ h).1⟩

end UtilsPsa
